import Mathlib

/-!
Shallow embedding of the reindeer metadata index (src/index.rs) and lockfile
verifier (src/lockfile.rs), together with theorems checking the specification
against the embedded code.

Types that live in modules outside the two given source files (cargo.rs,
platform.rs, the semver crate) are modelled from the spec, as indicated by
their doc comments. Panics (expect, unwrap, assert) are modelled as None;
fallible operations return Except.
-/

/-- Modelled from the spec: opaque, globally unique package identifier
(cargo.rs PkgId is not in scope); the spec says it identifies one
(name, version, source) combination and is used only as a key. -/
abbrev PkgId := String

/-- Modelled from the spec: a semantic version, reduced to its
(major, minor, patch) numbers; the semver crate is an external collaborator. -/
abbrev Version := Nat × Nat × Nat

/-- Modelled from the spec: dependency kind of a declared dependency
(cargo.rs DepKind): Normal, Dev or Build. -/
inductive DepKind where
  | normal
  | dev
  | build
deriving DecidableEq, Repr

/-- Modelled from the spec: the kind of a build target, one of
library, binary, example, test, benchmark, proc-macro (here "proc"),
dynamic-library (cdylib) and custom-build-script. -/
inductive TargetKind where
  | lib
  | bin
  | exampleTgt
  | test
  | bench
  | proc
  | cdylib
  | customBuild
deriving DecidableEq, Repr

/-- Modelled from the spec: a build target of a package (cargo.rs
ManifestTarget), with a kind and a name. -/
structure ManifestTarget where
  kind : TargetKind
  name : String
deriving DecidableEq, Repr

/-- Modelled from the spec: target-kind test, true when the target is a library. -/
def ManifestTarget.kind_lib (t : ManifestTarget) : Bool := t.kind = .lib

/-- Modelled from the spec: target-kind test, true when the target is a binary. -/
def ManifestTarget.kind_bin (t : ManifestTarget) : Bool := t.kind = .bin

/-- Modelled from the spec: target-kind test, true when the target is an example. -/
def ManifestTarget.kind_example (t : ManifestTarget) : Bool := t.kind = .exampleTgt

/-- Modelled from the spec: target-kind test, true when the target is a test. -/
def ManifestTarget.kind_test (t : ManifestTarget) : Bool := t.kind = .test

/-- Modelled from the spec: target-kind test, true when the target is a benchmark. -/
def ManifestTarget.kind_bench (t : ManifestTarget) : Bool := t.kind = .bench

/-- Modelled from the spec: target-kind test, true when the target is a
procedural-macro (kind_proc_macro in the source). -/
def ManifestTarget.kind_proc (t : ManifestTarget) : Bool := t.kind = .proc

/-- Modelled from the spec: target-kind test, true when the target is a
dynamic library (cdylib). -/
def ManifestTarget.kind_cdylib (t : ManifestTarget) : Bool := t.kind = .cdylib

/-- Modelled from the spec: target-kind test, true when the target is a
custom build script. -/
def ManifestTarget.kind_custom_build (t : ManifestTarget) : Bool := t.kind = .customBuild

/-- Modelled from the spec: a declared dependency of a manifest (cargo.rs
ManifestDep): name as written, optional rename, kind, and optional
platform-condition string in the target field (absent = unconditional). -/
structure ManifestDep where
  name : String
  rename : Option String
  kind : DepKind
  target : Option String
deriving DecidableEq, Repr

/-- Extra per-package metadata to be kept in sync with the package list
(src/index.rs, ExtraMetadata). -/
structure ExtraMetadata where
  oncall : String
deriving DecidableEq, Repr

/-- Modelled from the spec: a package manifest (cargo.rs Manifest). The
free-form metadata blob is reduced to its already-deserialized
"third-party" sub-table: none models a blob with no such key, and generic
JSON deserialization is out of scope. -/
structure Manifest where
  id : PkgId
  name : String
  version : Version
  source : Option String
  dependencies : List ManifestDep
  targets : List ManifestTarget
  thirdParty : Option (List (String × ExtraMetadata))
deriving DecidableEq, Repr

/-- Modelled from the spec: TargetReq query key - the library target of a
package, or any binary target of it (cargo.rs TargetReq). -/
inductive TargetReq where
  | lib
  | everyBin
deriving DecidableEq, Repr

/-- Modelled from the spec: one resolved-dependency-kind record attached to a
resolved edge (cargo.rs NodeDepKind): kind tag, optional extern name (here
extName) and optional own platform string. -/
structure NodeDepKind where
  kind : DepKind
  extName : Option String
  target : Option String
deriving DecidableEq, Repr

/-- Modelled from the spec: the TargetReq derived from a resolved-dependency-
kind record; the spec gives no detail of the derivation beyond its result
type, so every record requests the library target here. None of the claims
depends on which TargetReq a given record maps to. -/
def NodeDepKind.target_req (_ : NodeDepKind) : TargetReq := .lib

/-- Modelled from the spec: a resolved dependency edge (cargo.rs NodeDep):
target package id, optional edge-level name, dep-kind records. -/
structure NodeDep where
  pkg : PkgId
  name : Option String
  dep_kinds : List NodeDepKind
deriving DecidableEq, Repr

/-- Modelled from the spec: a resolved graph node (cargo.rs Node): package id,
resolved dependency edges, resolved feature set. -/
structure Node where
  id : PkgId
  deps : List NodeDep
  features : List String
deriving DecidableEq, Repr

/-- Modelled from the spec: the resolve section of the metadata snapshot:
optional root id and node list. -/
structure Resolve where
  root : Option PkgId
  nodes : List Node
deriving DecidableEq, Repr

/-- Modelled from the spec: a whole metadata snapshot (cargo.rs Metadata):
flat package list plus resolve section. -/
structure Metadata where
  packages : List Manifest
  resolve : Resolve
deriving DecidableEq, Repr

/-- Modelled from the spec: a parsed platform predicate (platform.rs
PlatformPredicate) - a boolean expression over cfg flags, with an explicit
OR-of-predicates variant. -/
inductive PlatformPredicate where
  | flag (s : String)
  | any (ps : List PlatformPredicate)

/-- Character class accepted inside a modelled cfg flag. -/
def isFlagChar (c : Char) : Bool := c.isAlphanum || c = '_'

/-- Modelled from the spec: PlatformPredicate parsing - accepts a
platform-condition string of the shape cfg(flag) for an identifier-like
flag; anything else fails to parse. -/
def PlatformPredicate.parse (s : String) : Option PlatformPredicate :=
  match s.data with
  | 'c' :: 'f' :: 'g' :: '(' :: rest =>
    match rest.reverse with
    | ')' :: innerRev =>
      let inner := innerRev.reverse
      if inner.isEmpty then none
      else if inner.all isFlagChar then some (.flag (String.mk inner)) else none
    | _ => none
  | _ => none

mutual

/-- Modelled from the spec: rendering of a predicate as the text placed inside
a cfg guard (the Display impl of platform.rs). -/
def PlatformPredicate.render : PlatformPredicate → String
  | .flag s => s
  | .any ps => "any(" ++ renderList ps ++ ")"

/-- Comma-separated rendering of a predicate list. -/
def renderList : List PlatformPredicate → String
  | [] => ""
  | [p] => p.render
  | p :: rest => p.render ++ ", " ++ renderList rest

end

mutual

/-- Modelled from the spec: evaluation of a platform predicate under a
valuation of cfg flags; the OR-of-predicates variant is true when any
member is. -/
def PlatformPredicate.eval (v : String → Bool) : PlatformPredicate → Bool
  | .flag s => v s
  | .any ps => evalList v ps

/-- Disjunction of the evaluations of a predicate list. -/
def evalList (v : String → Bool) : List PlatformPredicate → Bool
  | [] => false
  | p :: rest => p.eval v || evalList v rest

end

/-- Platform guard expressions are strings such as cfg(windows)
(platform.rs PlatformExpr). -/
abbrev PlatformExpr := String

/-- A resolved dependency produced by resolved_deps_for_target
(src/index.rs, ResolvedDep). -/
structure ResolvedDep where
  package : Manifest
  platform : Option PlatformExpr
  rename : String
  dep_kind : NodeDepKind
deriving DecidableEq, Repr

/-- HashMap-style lookup over the association list a map was collected from:
the last binding for a key wins, matching HashMap and BTreeMap collect
semantics (later insertions overwrite earlier ones). -/
def lookupLast {κ ν : Type} [DecidableEq κ] (l : List (κ × ν)) (k : κ) : Option ν :=
  (l.reverse.find? fun p => decide (p.1 = k)).map (fun p => p.2)

/-- pkgid_to_pkg lookup (src/index.rs line 107): the package list indexed by
id; on duplicate ids the last-inserted manifest wins. -/
def findPkg (meta : Metadata) (id : PkgId) : Option Manifest :=
  meta.packages.reverse.find? fun m => decide (m.id = id)

/-- pkgid_to_node lookup (src/index.rs line 120): the resolve nodes indexed by
id; on duplicate ids the last-inserted node wins. -/
def findNode (meta : Metadata) (id : PkgId) : Option Node :=
  meta.resolve.nodes.reverse.find? fun n => decide (n.id = id)

/-- resolved_deps (src/index.rs lines 247-271): flatten a package's resolved
node dependency edges into (effective name, kind record, dependency manifest)
triples, one per dep-kind record. The unwrap panics of the source (missing
node, unresolvable name, missing catalog entry) are modelled as none. This
first piece is the body of the inner closure: resolve the effective name
(edge name, else extern name), then the dependency manifest. -/
def resolvedDepEntry (meta : Metadata) (nd : NodeDep) (dk : NodeDepKind) :
    Option (String × NodeDepKind × Manifest) := do
  let name ← nd.name.or dk.extName
  let depPkg ← findPkg meta nd.pkg
  pure (name, dk, depPkg)

/-- The per-edge flattening of resolved_deps: one triple per dep-kind record
attached to the edge. -/
def resolvedDepEdge (meta : Metadata) (nd : NodeDep) :
    Option (List (String × NodeDepKind × Manifest)) :=
  nd.dep_kinds.mapM (resolvedDepEntry meta nd)

/-- resolved_deps continued: flatten all edges of the package's node. -/
def resolvedDeps (meta : Metadata) (pkg : Manifest) :
    Option (List (String × NodeDepKind × Manifest)) := do
  let node ← findNode meta pkg.id
  let ls ← node.deps.mapM (resolvedDepEdge meta)
  pure ls.flatten

/-- deps_for_target (src/index.rs lines 275-289): the package's declared
dependencies whose kind is applicable to the target's kind, guarded by the
membership assertion; assertion failure (a panic) is modelled as none. -/
def deps_for_target (pkg : Manifest) (tgt : ManifestTarget) :
    Option (List ManifestDep) :=
  if tgt ∈ pkg.targets then
    some (pkg.dependencies.filter fun dep =>
      match dep.kind with
      | .normal => tgt.kind_lib || tgt.kind_proc || tgt.kind_bin || tgt.kind_cdylib
      | .dev => tgt.kind_bench || tgt.kind_test || tgt.kind_example
      | .build => tgt.kind_custom_build)
  else
    none

/-- The merge group of a dependency name inside resolved_deps_for_target
(src/index.rs lines 298-306): the applicable declared dependencies sharing
that name, collected into a HashSet (so equal declarations are deduplicated). -/
def depGroup (ds : List ManifestDep) (name : String) : List ManifestDep :=
  (ds.filter fun d => decide (d.name = name)).dedup

/-- The platform-union loop of resolved_deps_for_target (src/index.rs lines
313-333): walk the merge group accumulating parsed predicates; an
unconditional declaration clears the accumulator and stops the loop; a
declaration whose platform string fails to parse is skipped. -/
def mergePlatforms : List PlatformPredicate → List ManifestDep → List PlatformPredicate
  | acc, [] => acc
  | acc, mdep :: mdeps =>
    match mdep.target with
    | some plat =>
      match PlatformPredicate.parse plat with
      | some pred => mergePlatforms (acc ++ [pred]) mdeps
      | none => mergePlatforms acc mdeps
    | none => []

/-- The guard construction of resolved_deps_for_target (src/index.rs lines
335-345): no predicate means no guard, one predicate is rendered directly,
several are wrapped in the OR-of-predicates variant. -/
def combineGuard (g : List ManifestDep) : Option PlatformExpr :=
  match mergePlatforms [] g with
  | [] => none
  | [plat] => some ("cfg(" ++ plat.render ++ ")")
  | platforms => some ("cfg(" ++ (PlatformPredicate.any platforms).render ++ ")")

/-- resolved_deps_for_target (src/index.rs lines 292-346): resolved
dependencies filtered by the declared dependencies applicable to the target,
each carrying the combined platform guard of its merge group. -/
def resolved_deps_for_target (meta : Metadata) (pkg : Manifest)
    (tgt : ManifestTarget) : Option (List ResolvedDep) := do
  let ds ← deps_for_target pkg tgt
  let rdeps ← resolvedDeps meta pkg
  pure (rdeps.filterMap fun rd =>
    let g := depGroup ds rd.2.2.name
    if g.isEmpty then
      none
    else
      some { package := rd.2.2, platform := combineGuard g,
             rename := rd.1, dep_kind := rd.2.1 })

/-- Index for interesting things in Cargo metadata (src/index.rs, Index).
public_targets keeps the full insertion sequence of the BTreeMap collect;
lookups take the last binding for a key. -/
structure Index where
  root_pkg : Manifest
  public_packages : List PkgId
  public_targets : List ((PkgId × TargetReq) × Option String)
deriving DecidableEq, Repr

/-- Underscore normalization of a rename, modelling the character replacement
of hyphens by underscores applied to rename keys in Index::new line 132. -/
def normalizeRename (r : String) : String :=
  String.mk (r.data.map fun c => if c = '-' then '_' else c)

/-- The rename index of Index::new lines 127-134: map each explicitly renamed
root dependency's underscore-normalized rename to the rename itself; a
HashMap collect, so on key collision the last binding wins under lookupLast. -/
def depRenamed (root_pkg : Manifest) : List (String × String) :=
  root_pkg.dependencies.filterMap fun dep =>
    dep.rename.map fun r => (normalizeRename r, r)

/-- The public-target map of Index::new lines 138-151 as its insertion
sequence: one entry per resolved root edge and dep-kind record, followed by
the synthetic top-level entries (so those overwrite on key collision under
lookupLast). -/
def publicTargetsList (root_is_real : Bool) (root_pkg : Manifest)
    (rdeps : List (String × NodeDepKind × Manifest)) :
    List ((PkgId × TargetReq) × Option String) :=
  (rdeps.map fun rd =>
    ((rd.2.2.id, rd.2.1.target_req), lookupLast (depRenamed root_pkg) rd.1)) ++
  ((if root_is_real then [root_pkg.id] else []).flatMap fun pkgid =>
    [((pkgid, TargetReq.lib), none), ((pkgid, TargetReq.everyBin), none)])

/-- Index::new (src/index.rs lines 106-161). The expect and unwrap panics of
construction are modelled as none. -/
def Index.new (root_is_real : Bool) (meta : Metadata) : Option Index := do
  let rootId ← meta.resolve.root
  let root_pkg ← findPkg meta rootId
  let rdeps ← resolvedDeps meta root_pkg
  let public_targets := publicTargetsList root_is_real root_pkg rdeps
  pure { root_pkg := root_pkg,
         public_packages := public_targets.map fun p => p.1.1,
         public_targets := public_targets }

/-- is_public_target (src/index.rs lines 174-176): membership of the
(package id, target requirement) key in the public-target map. -/
def Index.is_public_target (idx : Index) (pkg : Manifest) (tr : TargetReq) : Bool :=
  (lookupLast idx.public_targets (pkg.id, tr)).isSome

/-- The rename recorded for a public target, when the key is present. -/
def Index.public_target_rename (idx : Index) (pkg : Manifest) (tr : TargetReq) :
    Option (Option String) :=
  lookupLast idx.public_targets (pkg.id, tr)

/-- The validation loop of get_extra_meta (src/index.rs lines 215-226):
matched keys are re-keyed into the result map, unmatched keys accumulate
into the cumulative error set (a BTreeSet, so without duplicates). -/
def extraMetaLoop (pubpkgs : List String) (errs : List String)
    (ret : List (String × ExtraMetadata)) :
    List (String × ExtraMetadata) → List String × List (String × ExtraMetadata)
  | [] => (errs, ret)
  | (name, val) :: rest =>
    if name ∈ pubpkgs then
      extraMetaLoop pubpkgs errs (ret ++ [(name, val)]) rest
    else
      extraMetaLoop pubpkgs (if name ∈ errs then errs else errs ++ [name]) ret rest

/-- get_extra_meta (src/index.rs lines 199-233): read the third-party table
from the root manifest's metadata, validate every key against the root's
direct declared dependency names, and either return the re-keyed mapping or
one aggregate error listing all unmatched keys. -/
def get_extra_meta (root : Manifest) :
    Except (List String) (List (String × ExtraMetadata)) :=
  let pubpkgs := root.dependencies.map fun d => d.name
  match root.thirdParty with
  | none => .ok []
  | some table =>
    let res := extraMetaLoop pubpkgs [] [] table
    if res.1.isEmpty then .ok res.2 else .error res.1

/-- compareOfLessAndEq packaged as a comparator over a linear order; used to
model the Ord instances of the lockfile key components. -/
def cmpBy {α : Type} [LinearOrder α] (x y : α) : Ordering :=
  if x < y then .lt else if x = y then .eq else .gt

/-- Lexicographic combination of two comparators, modelling Rust tuple Ord. -/
def lexCmp {α β : Type} (c : α → α → Ordering) (d : β → β → Ordering)
    (a b : α × β) : Ordering :=
  (c a.1 b.1).then (d a.2 b.2)

/-- Comparator on options, modelling Rust Option Ord: None sorts before Some. -/
def optCmp {α : Type} (c : α → α → Ordering) : Option α → Option α → Ordering
  | none, none => .eq
  | none, some _ => .lt
  | some _, none => .gt
  | some a, some b => c a b

/-- The (name, version, source) key both Lockfile::load's sort and
Lockfile::find's binary search operate on. -/
abbrev LockKey := String × Version × Option String

/-- Rust Ord comparison of the (name, version, source) key tuple. -/
def keyCmp : LockKey → LockKey → Ordering :=
  lexCmp cmpBy (lexCmp (lexCmp cmpBy (lexCmp cmpBy cmpBy)) (optCmp cmpBy))

/-- One lockfile package entry (src/lockfile.rs, LockfilePackage). The Source
type lives in cargo.rs and is modelled from the spec as a URL-like string. -/
structure LockfilePackage where
  name : String
  version : Version
  source : Option String
  checksum : Option String
deriving DecidableEq, Repr

instance : Inhabited LockfilePackage := ⟨⟨"", (0, 0, 0), none, none⟩⟩

/-- The sort and search key of a lockfile entry. -/
def LockfilePackage.key (p : LockfilePackage) : LockKey :=
  (p.name, p.version, p.source)

/-- The same triple computed from a manifest by Lockfile::find. -/
def Manifest.lockKey (m : Manifest) : LockKey :=
  (m.name, m.version, m.source)

/-- The boolean order Lockfile::load sorts by: key comparison not Greater. -/
def lockLe (a b : LockfilePackage) : Bool :=
  keyCmp a.key b.key != Ordering.gt

/-- Hopefully3 deserialization (src/lockfile.rs lines 66-77): every version
number is accepted; a value other than 3 only produces a log warning, which
has no effect on the result. -/
def hopefully3Deserialize (_version : Nat) : Except String Unit :=
  .ok ()

/-- The lockfile (src/lockfile.rs, Lockfile): the version marker (Hopefully3,
a unit type) and the package entries. -/
structure Lockfile where
  version : Unit
  packages : List LockfilePackage
deriving DecidableEq, Repr

/-- Lockfile::load (src/lockfile.rs lines 27-41), after the out-of-scope file
read and TOML deserialization have produced the version field and the entry
list: deserialize the version marker, then sort entries by
(name, version, source). -/
def Lockfile.load (version : Nat) (pkgs : List LockfilePackage) :
    Except String Lockfile := do
  let v ← hopefully3Deserialize version
  .ok { version := v, packages := pkgs.mergeSort lockLe }

/-- Rust slice binary_search_by over the index interval [left, right): probe
returns how the probed element compares to the sought key; Less moves left
past the midpoint, Greater moves right to it, Equal returns the midpoint. -/
def binSearchGo (f : LockfilePackage → Ordering) (xs : List LockfilePackage)
    (left right : Nat) : Option Nat :=
  if _h : left < right then
    match f (xs.getD (left + (right - left) / 2) default) with
    | .lt => binSearchGo f xs (left + (right - left) / 2 + 1) right
    | .gt => binSearchGo f xs left (left + (right - left) / 2)
    | .eq => some (left + (right - left) / 2)
  else
    none
termination_by right - left
decreasing_by
  all_goals omega

/-- Lockfile::find (src/lockfile.rs lines 43-52): binary search for the
manifest's (name, version, source) triple; a hit returns the entry at the
found index, a miss returns none. -/
def Lockfile.find (lf : Lockfile) (m : Manifest) : Option LockfilePackage :=
  match binSearchGo (fun p => keyCmp p.key m.lockKey) lf.packages 0
      lf.packages.length with
  | some i => some (lf.packages.getD i default)
  | none => none

/-- The fixed dependency-kind to target-kind compatibility table exactly as
section 4.3 of the spec states it, written from the spec for comparison with
the deps_for_target filter. -/
def specApplicable (dk : DepKind) (tk : TargetKind) : Bool :=
  match dk with
  | .normal => tk = .lib || tk = .proc || tk = .bin || tk = .cdylib
  | .dev => tk = .bench || tk = .test || tk = .exampleTgt
  | .build => tk = .customBuild

/-- Lawfulness of a comparator: Equal means equality, Less flips to Greater
under argument swap, and Less is transitive. -/
structure LawfulCmp {α : Type} (cmp : α → α → Ordering) : Prop where
  eq_iff : ∀ a b, cmp a b = .eq ↔ a = b
  lt_gt : ∀ a b, cmp a b = .lt ↔ cmp b a = .gt
  lt_trans : ∀ a b c, cmp a b = .lt → cmp b c = .lt → cmp a c = .lt

/-- Sample library target used by the concrete evaluations below. -/
def libT : ManifestTarget := ⟨.lib, "l"⟩

/-- Sample test target. -/
def testT : ManifestTarget := ⟨.test, "t"⟩

/-- Sample dep-kind record of Normal kind with no extra data. -/
def ndkNormal : NodeDepKind := ⟨.normal, none, none⟩

/-- Sample declaration: dependency a, Normal, unconditional. -/
def depAUncond : ManifestDep := ⟨"a", none, .normal, none⟩

/-- Sample declaration: dependency a, Normal, under cfg windows. -/
def depAWin : ManifestDep := ⟨"a", none, .normal, some "cfg(windows)"⟩

/-- Sample declaration: dependency b, Normal, under cfg windows. -/
def depBWin : ManifestDep := ⟨"b", none, .normal, some "cfg(windows)"⟩

/-- Sample declaration: dependency b, Normal, under cfg unix. -/
def depBUnix : ManifestDep := ⟨"b", none, .normal, some "cfg(unix)"⟩

/-- Sample declaration with a platform string that fails to parse. -/
def depCBad : ManifestDep := ⟨"c", none, .normal, some "linux"⟩

/-- Another sample declaration with an unparsable platform string. -/
def depCBad2 : ManifestDep := ⟨"c", none, .normal, some "bad predicate"⟩

/-- Sample Dev-kind declaration. -/
def depDev : ManifestDep := ⟨"d", none, .dev, none⟩

/-- Sample dependency package a. -/
def pkgA : Manifest := ⟨"id-a", "a", (1, 0, 0), some "registry", [], [libT], none⟩

/-- Sample root package declaring a twice (conditionally and unconditionally)
and a Dev dependency. -/
def exRoot : Manifest :=
  ⟨"id-root", "root", (0, 1, 0), none, [depAUncond, depAWin, depDev], [libT], none⟩

/-- Sample metadata snapshot: the root with one resolved edge to package a. -/
def exMeta : Metadata :=
  ⟨[exRoot, pkgA],
   ⟨some "id-root",
    [⟨"id-root", [⟨"id-a", some "a", [ndkNormal]⟩], []⟩, ⟨"id-a", [], []⟩]⟩⟩

/-- Sample package b for the dangling-reference snapshot. -/
def cexB : Manifest := ⟨"id-b", "b", (1, 0, 0), some "registry", [], [libT], none⟩

/-- Root of the dangling-reference snapshots. -/
def cexRoot : Manifest := ⟨"id-root", "root", (0, 1, 0), none, [], [libT], none⟩

/-- Snapshot whose non-root node b has a resolved edge to an id (id-ghost)
with no catalog entry, while the root's own edges all resolve. -/
def cexMeta : Metadata :=
  ⟨[cexRoot, cexB],
   ⟨some "id-root",
    [⟨"id-root", [⟨"id-b", some "b", [ndkNormal]⟩], []⟩,
     ⟨"id-b", [⟨"id-ghost", some "g", [ndkNormal]⟩], []⟩]⟩⟩

/-- Snapshot whose root node has a resolved edge to an id with no catalog
entry. -/
def cexMeta2 : Metadata :=
  ⟨[cexRoot],
   ⟨some "id-root", [⟨"id-root", [⟨"id-ghost", some "g", [ndkNormal]⟩], []⟩]⟩⟩

/-- Root whose third-party table has two keys with no matching direct
dependency (zed and a-typo). -/
def root8bad : Manifest :=
  ⟨"id-root", "root", (0, 1, 0), none, [depAUncond, depBWin], [libT],
   some [("a", ⟨"oncall-a"⟩), ("zed", ⟨"oncall-z"⟩), ("a-typo", ⟨"oncall-t"⟩)]⟩

/-- Root whose third-party table matches its direct dependencies exactly. -/
def root8ok : Manifest :=
  ⟨"id-root", "root", (0, 1, 0), none, [depAUncond, depBWin], [libT],
   some [("a", ⟨"oncall-a"⟩), ("b", ⟨"oncall-b"⟩)]⟩

/-- Sample lockfile entry alpha 1.0.0 from a registry. -/
def lockP1 : LockfilePackage := ⟨"alpha", (1, 0, 0), some "reg", some "sum1"⟩

/-- Sample lockfile entry beta 0.2.1 with no source. -/
def lockP2 : LockfilePackage := ⟨"beta", (0, 2, 1), none, none⟩

/-- Sample lockfile entry beta 0.2.1 from a registry. -/
def lockP3 : LockfilePackage := ⟨"beta", (0, 2, 1), some "reg", none⟩

/-- Sample unsorted lockfile entry list. -/
def lockPkgsW : List LockfilePackage := [lockP3, lockP1, lockP2]

/-- Manifest matching lockP3 exactly on (name, version, source). -/
def mBeta : Manifest := ⟨"id-beta", "beta", (0, 2, 1), some "reg", [], [], none⟩

/-- Manifest matching no lockfile entry. -/
def mGamma : Manifest := ⟨"id-gamma", "gamma", (9, 9, 9), none, [], [], none⟩

/-- Survival predicate of a declaration in the platform merge: unconditional
declarations and declarations whose platform string parses survive;
declarations whose platform string fails to parse are dropped. -/
def keepDecl (d : ManifestDep) : Bool :=
  match d.target with
  | none => true
  | some s => (PlatformPredicate.parse s).isSome

/-- The resolved dependency emitted for package a from the sample snapshot. -/
def rW : ResolvedDep := ⟨pkgA, none, "a", ndkNormal⟩

/-- The dangling resolved edge of cexMeta: it references id-ghost, which has
no catalog entry. -/
def ghostEdge : NodeDep := ⟨"id-ghost", some "g", [ndkNormal]⟩

/-- The non-root node of cexMeta carrying the dangling edge. -/
def nodeB : Node := ⟨"id-b", [ghostEdge], []⟩

/-- The index built from the sample snapshot with root_is_real = true. -/
def idxTW : Index :=
  ⟨exRoot, ["id-a", "id-root", "id-root"],
   [(("id-a", .lib), none), (("id-root", .lib), none),
    (("id-root", .everyBin), none)]⟩

/-- The index built from the sample snapshot with root_is_real = false. -/
def idxFW : Index := ⟨exRoot, ["id-a"], [(("id-a", .lib), none)]⟩

theorem mergePlatforms_cons_none (acc : List PlatformPredicate)
    (a : ManifestDep) (rest : List ManifestDep) (h : a.target = none) :
    mergePlatforms acc (a :: rest) = [] := by
  simp [mergePlatforms, h]

theorem mergePlatforms_cons_parsed (acc : List PlatformPredicate)
    (a : ManifestDep) (rest : List ManifestDep) (s : String)
    (p : PlatformPredicate) (h : a.target = some s)
    (hp : PlatformPredicate.parse s = some p) :
    mergePlatforms acc (a :: rest) = mergePlatforms (acc ++ [p]) rest := by
  simp [mergePlatforms, h, hp]

theorem mergePlatforms_cons_failed (acc : List PlatformPredicate)
    (a : ManifestDep) (rest : List ManifestDep) (s : String)
    (h : a.target = some s) (hp : PlatformPredicate.parse s = none) :
    mergePlatforms acc (a :: rest) = mergePlatforms acc rest := by
  simp [mergePlatforms, h, hp]

theorem mergePlatforms_of_uncond :
    ∀ (g : List ManifestDep) (acc : List PlatformPredicate),
      (∃ d ∈ g, d.target = none) → mergePlatforms acc g = [] := by
  intro g
  induction g with
  | nil =>
    intro acc h
    obtain ⟨d, hd, _⟩ := h
    exact absurd hd (List.not_mem_nil d)
  | cons a rest ih =>
    intro acc h
    obtain ⟨d, hd, hdt⟩ := h
    rcases List.mem_cons.mp hd with rfl | hmem
    · exact mergePlatforms_cons_none acc d rest hdt
    · cases hat : a.target with
      | none => exact mergePlatforms_cons_none acc a rest hat
      | some plat =>
        cases hp : PlatformPredicate.parse plat with
        | some pred =>
          rw [mergePlatforms_cons_parsed acc a rest plat pred hat hp]
          exact ih _ ⟨d, hmem, hdt⟩
        | none =>
          rw [mergePlatforms_cons_failed acc a rest plat hat hp]
          exact ih _ ⟨d, hmem, hdt⟩

theorem mergePlatforms_of_cond :
    ∀ (g : List ManifestDep) (acc : List PlatformPredicate),
      (∀ d ∈ g, d.target ≠ none) →
      mergePlatforms acc g =
        acc ++ g.filterMap fun d => d.target.bind PlatformPredicate.parse := by
  intro g
  induction g with
  | nil => intro acc _; simp [mergePlatforms]
  | cons a rest ih =>
    intro acc h
    cases hat : a.target with
    | none => exact absurd hat (h a (List.mem_cons_self a rest))
    | some plat =>
      have hrest : ∀ d ∈ rest, d.target ≠ none := fun d hd =>
        h d (List.mem_cons_of_mem a hd)
      cases hp : PlatformPredicate.parse plat with
      | some pred =>
        rw [mergePlatforms_cons_parsed acc a rest plat pred hat hp, ih _ hrest]
        simp [List.filterMap_cons, hat, hp]
      | none =>
        rw [mergePlatforms_cons_failed acc a rest plat hat hp, ih _ hrest]
        simp [List.filterMap_cons, hat, hp]

theorem mergePlatforms_filter_keep :
    ∀ (g : List ManifestDep) (acc : List PlatformPredicate),
      mergePlatforms acc g = mergePlatforms acc (g.filter keepDecl) := by
  intro g
  induction g with
  | nil => intro acc; rfl
  | cons a rest ih =>
    intro acc
    cases hat : a.target with
    | none =>
      have hk : keepDecl a = true := by simp [keepDecl, hat]
      rw [List.filter_cons_of_pos hk,
        mergePlatforms_cons_none acc a rest hat,
        mergePlatforms_cons_none acc a (rest.filter keepDecl) hat]
    | some plat =>
      cases hp : PlatformPredicate.parse plat with
      | some pred =>
        have hk : keepDecl a = true := by simp [keepDecl, hat, hp]
        rw [List.filter_cons_of_pos hk,
          mergePlatforms_cons_parsed acc a rest plat pred hat hp,
          mergePlatforms_cons_parsed acc a (rest.filter keepDecl) plat pred hat hp]
        exact ih (acc ++ [pred])
      | none =>
        have hk : keepDecl a = false := by simp [keepDecl, hat, hp]
        rw [List.filter_cons_of_neg (by simp [hk]),
          mergePlatforms_cons_failed acc a rest plat hat hp]
        exact ih acc

theorem evalList_any (v : String → Bool) (ps : List PlatformPredicate) :
    evalList v ps = ps.any fun p => p.eval v := by
  induction ps with
  | nil => rfl
  | cons p rest ih => simp [evalList, ih]

theorem combineGuard_of_merge_nil (g : List ManifestDep)
    (h : mergePlatforms [] g = []) : combineGuard g = none := by
  unfold combineGuard
  rw [h]

theorem resolved_mem_platform (meta : Metadata) (pkg : Manifest)
    (tgt : ManifestTarget) (rds : List ResolvedDep) (r : ResolvedDep)
    (h : resolved_deps_for_target meta pkg tgt = some rds) (hr : r ∈ rds) :
    ∃ ds, deps_for_target pkg tgt = some ds ∧
      r.platform = combineGuard (depGroup ds r.package.name) := by
  cases hds : deps_for_target pkg tgt with
  | none => unfold resolved_deps_for_target at h; rw [hds] at h; simp at h
  | some ds =>
    cases hrd : resolvedDeps meta pkg with
    | none => unfold resolved_deps_for_target at h; rw [hds, hrd] at h; simp at h
    | some rdeps =>
      unfold resolved_deps_for_target at h
      rw [hds, hrd] at h
      have h4 : (rdeps.filterMap fun rd =>
          if (depGroup ds rd.2.2.name).isEmpty = true then none
          else some { package := rd.2.2,
                      platform := combineGuard (depGroup ds rd.2.2.name),
                      rename := rd.1, dep_kind := rd.2.1 }) = rds :=
        Option.some.inj h
      subst h4
      obtain ⟨rd, hrdmem, hfr⟩ := List.mem_filterMap.mp hr
      by_cases hemp : (depGroup ds rd.2.2.name).isEmpty = true
      · rw [if_pos hemp] at hfr
        exact absurd hfr (by simp)
      · rw [if_neg hemp] at hfr
        refine ⟨ds, rfl, ?_⟩
        rw [← Option.some.inj hfr]

/-- C1: in resolved_deps_for_target, a merge group containing an unconditional
declaration (one with no platform-condition string) yields a combined guard
of None, in every order in which the group is examined, and the emitted
ResolvedDep for such a group carries no platform guard. -/
theorem c1_unconditional_absorbing (g : List ManifestDep)
    (hg : ∃ d ∈ g, d.target = none) :
    combineGuard g = none ∧
    (∀ gp : List ManifestDep, g.Perm gp → combineGuard gp = none) ∧
    (∀ (meta : Metadata) (pkg : Manifest) (tgt : ManifestTarget)
        (rds : List ResolvedDep) (r : ResolvedDep),
      resolved_deps_for_target meta pkg tgt = some rds → r ∈ rds →
      (∀ ds, deps_for_target pkg tgt = some ds →
        g = depGroup ds r.package.name) →
      r.platform = none) := by
  have habs : ∀ gp : List ManifestDep, g.Perm gp → combineGuard gp = none := by
    intro gp hp
    obtain ⟨d, hd, hdt⟩ := hg
    exact combineGuard_of_merge_nil gp
      (mergePlatforms_of_uncond gp [] ⟨d, hp.mem_iff.mp hd, hdt⟩)
  have hself : combineGuard g = none := habs g (List.Perm.refl g)
  refine ⟨hself, habs, ?_⟩
  intro meta pkg tgt rds r h hr hgrp
  obtain ⟨ds, hds, hplat⟩ := resolved_mem_platform meta pkg tgt rds r h hr
  rw [hplat, ← hgrp ds hds]
  exact hself

/-- Witness: evaluating C1 on the sample snapshot, where the root declares a
both under cfg(windows) and unconditionally: every order gives guard None
and the emitted resolved dependency has no platform guard. -/
theorem c1_unconditional_absorbing_witness :
    combineGuard [depAWin, depAUncond] = none ∧
    resolved_deps_for_target exMeta exRoot libT = some [rW] ∧
    rW.platform = none := by
  refine ⟨?_, by decide, ?_⟩
  · exact (c1_unconditional_absorbing [depAUncond, depAWin] (by decide)).2.1
      [depAWin, depAUncond] (by decide)
  · refine (c1_unconditional_absorbing [depAUncond, depAWin] (by decide)).2.2
      exMeta exRoot libT [rW] rW (by decide) (List.mem_cons_self rW []) ?_
    intro ds hds
    have hds2 : deps_for_target exRoot libT = some [depAUncond, depAWin] := by decide
    rw [hds2] at hds
    cases Option.some.inj hds
    decide

/-- C2: with no unconditional declaration in the merge group, zero parsed
predicates give a combined guard of None, exactly one gives that predicate
rendered as a cfg(...) string, and two or more give the rendered
OR-of-predicates of all of them, whose evaluation is their disjunction. -/
theorem c2_conditional_union (g : List ManifestDep)
    (ps : List PlatformPredicate)
    (hcond : ∀ d ∈ g, d.target ≠ none)
    (hps : ps = g.filterMap fun d => d.target.bind PlatformPredicate.parse) :
    (ps = [] → combineGuard g = none) ∧
    (∀ p, ps = [p] → combineGuard g = some ("cfg(" ++ p.render ++ ")")) ∧
    (2 ≤ ps.length →
      combineGuard g = some ("cfg(" ++ (PlatformPredicate.any ps).render ++ ")") ∧
      ∀ v, (PlatformPredicate.any ps).eval v = ps.any fun p => p.eval v) := by
  have hm : mergePlatforms [] g = ps := by
    rw [mergePlatforms_of_cond g [] hcond, hps, List.nil_append]
  refine ⟨?_, ?_, ?_⟩
  · intro h0
    unfold combineGuard
    rw [hm, h0]
  · intro p h1
    unfold combineGuard
    rw [hm, h1]
  · intro h2
    constructor
    · cases hcase : ps with
      | nil => rw [hcase] at h2; simp at h2
      | cons p rest =>
        cases hrest : rest with
        | nil => rw [hcase, hrest] at h2; simp at h2
        | cons q rest2 =>
          unfold combineGuard
          rw [hm, hcase, hrest]
    · intro v
      have : (PlatformPredicate.any ps).eval v = evalList v ps := rfl
      rw [this, evalList_any]

/-- Witness: evaluating C2 on concrete merge groups: an all-conditional group
whose only predicate fails to parse gives None; a single cfg(windows) gives
cfg(windows); cfg(windows) with cfg(unix) gives cfg(any(windows, unix)),
which evaluates true under a unix valuation. -/
theorem c2_conditional_union_witness :
    combineGuard [depCBad2] = none ∧
    combineGuard [depBWin] = some "cfg(windows)" ∧
    combineGuard [depBWin, depBUnix] = some "cfg(any(windows, unix))" ∧
    (PlatformPredicate.any [.flag "windows", .flag "unix"]).eval
      (fun s => s == "unix") = true := by
  have h0 := (c2_conditional_union [depCBad2] [] (by decide) (by rfl)).1 rfl
  have h1 := (c2_conditional_union [depBWin] [.flag "windows"]
    (by decide) (by rfl)).2.1 (.flag "windows") rfl
  have h2 := (c2_conditional_union [depBWin, depBUnix]
    [.flag "windows", .flag "unix"] (by decide) (by rfl)).2.2 (by decide)
  exact ⟨h0, h1.trans (by rfl), (h2.1).trans (by rfl),
    (h2.2 (fun s => s == "unix")).trans (by rfl)⟩

/-- C6: a declaration whose platform string fails to parse is dropped from its
merge group without affecting the others (the platform union equals the union
over the surviving declarations), an all-failing conditional group falls back
to the unconditional guard None, and parse failures never make
resolved_deps_for_target fail: its success depends only on the target
assertion and the graph lookups. -/
theorem c6_parse_failure_contained (g : List ManifestDep) :
    (∀ acc, mergePlatforms acc g = mergePlatforms acc (g.filter keepDecl)) ∧
    ((∀ d ∈ g, d.target ≠ none ∧
        (d.target.bind PlatformPredicate.parse).isNone = true) →
      combineGuard g = none) ∧
    (∀ (meta : Metadata) (pkg : Manifest) (tgt : ManifestTarget),
      (resolved_deps_for_target meta pkg tgt).isSome =
        ((deps_for_target pkg tgt).isSome && (resolvedDeps meta pkg).isSome)) := by
  refine ⟨fun acc => mergePlatforms_filter_keep g acc, ?_, ?_⟩
  · intro hall
    have hfil : g.filter keepDecl = [] := by
      rw [List.filter_eq_nil_iff]
      intro d hd
      obtain ⟨hne, hnone⟩ := hall d hd
      cases hdt : d.target with
      | none => exact absurd hdt hne
      | some s =>
        rw [hdt] at hnone
        simp only [Option.some_bind] at hnone
        simp [keepDecl, hdt, Option.isNone_iff_eq_none.mp hnone]
    apply combineGuard_of_merge_nil
    rw [mergePlatforms_filter_keep g [], hfil]
    rfl
  · intro meta pkg tgt
    cases hds : deps_for_target pkg tgt with
    | none => unfold resolved_deps_for_target; rw [hds]; rfl
    | some ds =>
      cases hrd : resolvedDeps meta pkg with
      | none => unfold resolved_deps_for_target; rw [hds, hrd]; rfl
      | some rdeps => unfold resolved_deps_for_target; rw [hds, hrd]; rfl

/-- Witness: evaluating C6 on concrete groups: dropping the unparsable
declaration from a mixed group leaves the surviving cfg(windows) union, and a
group of two unparsable conditional declarations falls back to guard None. -/
theorem c6_parse_failure_contained_witness :
    mergePlatforms [] [depBWin, depCBad2] =
      mergePlatforms [] ([depBWin, depCBad2].filter keepDecl) ∧
    combineGuard [depCBad, depCBad2] = none ∧
    mergePlatforms [] [depBWin, depCBad2] = [.flag "windows"] := by
  exact ⟨(c6_parse_failure_contained [depBWin, depCBad2]).1 [],
    (c6_parse_failure_contained [depCBad, depCBad2]).2.1 (by decide),
    by rfl⟩

/-- C4: deps_for_target keeps a declared dependency if and only if it is one
of the package's declared dependencies and the fixed compatibility table
admits its kind for the target's kind: Normal for library, proc-macro,
binary or cdylib targets; Dev for benchmark, test or example targets; Build
for custom-build-script targets. No declaration of an inapplicable kind is
ever emitted. -/
theorem c4_applicability_table (pkg : Manifest) (tgt : ManifestTarget)
    (d : ManifestDep) (htgt : tgt ∈ pkg.targets) :
    d ∈ (deps_for_target pkg tgt).getD [] ↔
      d ∈ pkg.dependencies ∧ specApplicable d.kind tgt.kind = true := by
  have hpred : (match d.kind with
      | .normal => tgt.kind_lib || tgt.kind_proc || tgt.kind_bin || tgt.kind_cdylib
      | .dev => tgt.kind_bench || tgt.kind_test || tgt.kind_example
      | .build => tgt.kind_custom_build) = specApplicable d.kind tgt.kind := by
    cases d.kind <;> rfl
  unfold deps_for_target
  rw [if_pos htgt]
  simp only [Option.getD_some]
  rw [List.mem_filter]
  rw [hpred]

/-- Witness: on the sample root and library target, the unconditional Normal
declaration is kept and the Dev declaration is not. -/
theorem c4_applicability_table_witness :
    depAUncond ∈ (deps_for_target exRoot libT).getD [] ∧
    depDev ∉ (deps_for_target exRoot libT).getD [] := by
  constructor
  · exact (c4_applicability_table exRoot libT depAUncond (by decide)).mpr
      (by decide)
  · intro hmem
    have h := (c4_applicability_table exRoot libT depDev (by decide)).mp hmem
    exact absurd h.2 (by decide)

/-- C10: deps_for_target (and resolved_deps_for_target through it) asserts
that the target belongs to the package: with a member target the assertion
passes and the declared-dependency filter is produced, while with a foreign
target both functions abort (modelled none) instead of returning a result. -/
theorem c10_target_assertion (meta : Metadata) (pkg : Manifest)
    (tgt : ManifestTarget) :
    (tgt ∈ pkg.targets → (deps_for_target pkg tgt).isSome = true) ∧
    (tgt ∉ pkg.targets → deps_for_target pkg tgt = none ∧
      resolved_deps_for_target meta pkg tgt = none) := by
  constructor
  · intro h
    unfold deps_for_target
    rw [if_pos h]
    rfl
  · intro h
    have hd : deps_for_target pkg tgt = none := by
      unfold deps_for_target
      rw [if_neg h]
    refine ⟨hd, ?_⟩
    unfold resolved_deps_for_target
    rw [hd]
    rfl

/-- Witness: the sample library target passes the assertion; the test target,
which the sample root does not have, makes both calls abort. -/
theorem c10_target_assertion_witness :
    (deps_for_target exRoot libT).isSome = true ∧
    deps_for_target exRoot testT = none ∧
    resolved_deps_for_target exMeta exRoot testT = none := by
  obtain ⟨h1, h2⟩ := (c10_target_assertion exMeta exRoot testT).2 (by decide)
  exact ⟨(c10_target_assertion exMeta exRoot libT).1 (by decide), h1, h2⟩

theorem findPkg_id (meta : Metadata) (i : PkgId) (m : Manifest)
    (h : findPkg meta i = some m) : m.id = i := by
  unfold findPkg at h
  have := List.find?_some h
  simpa using this

theorem mapM_option_mem {α β : Type} (f : α → Option β) :
    ∀ (l : List α) (l2 : List β), l.mapM f = some l2 →
      ∀ b ∈ l2, ∃ a ∈ l, f a = some b := by
  intro l
  induction l with
  | nil =>
    intro l2 h b hb
    rw [List.mapM_nil] at h
    have h2 : ([] : List β) = l2 := Option.some.inj h
    subst h2
    simp at hb
  | cons a t ih =>
    intro l2 h b hb
    rw [List.mapM_cons] at h
    cases hfa : f a with
    | none => rw [hfa] at h; simp at h
    | some x =>
      cases hmt : t.mapM f with
      | none => rw [hfa, hmt] at h; simp at h
      | some xs =>
        rw [hfa, hmt] at h
        have h2 : x :: xs = l2 := Option.some.inj h
        subst h2
        rcases List.mem_cons.mp hb with rfl | hmem
        · exact ⟨a, List.mem_cons_self a t, hfa⟩
        · obtain ⟨a2, ha2, hfa2⟩ := ih xs hmt b hmem
          exact ⟨a2, List.mem_cons_of_mem a ha2, hfa2⟩

theorem mapM_option_none {α β : Type} (f : α → Option β) :
    ∀ l : List α, (∃ a ∈ l, f a = none) → l.mapM f = none := by
  intro l
  induction l with
  | nil =>
    rintro ⟨a, ha, -⟩
    exact absurd ha (List.not_mem_nil a)
  | cons a t ih =>
    rintro ⟨d, hd, hfd⟩
    rw [List.mapM_cons]
    rcases List.mem_cons.mp hd with rfl | hmem
    · rw [hfd]
      rfl
    · cases hfa : f a with
      | none => rfl
      | some x =>
        rw [ih ⟨d, hmem, hfd⟩]
        rfl

theorem resolvedDeps_mem_pkg (meta : Metadata) (pkg : Manifest)
    (rdeps : List (String × NodeDepKind × Manifest))
    (h : resolvedDeps meta pkg = some rdeps)
    (rd : String × NodeDepKind × Manifest) (hrd : rd ∈ rdeps) :
    ∃ node, findNode meta pkg.id = some node ∧
      ∃ nd ∈ node.deps, rd.2.2.id = nd.pkg := by
  cases hn : findNode meta pkg.id with
  | none => unfold resolvedDeps at h; rw [hn] at h; simp at h
  | some node =>
    unfold resolvedDeps at h
    rw [hn] at h
    have hb : (node.deps.mapM (resolvedDepEdge meta)).bind
        (fun ls => some ls.flatten) = some rdeps := h
    cases hls : node.deps.mapM (resolvedDepEdge meta) with
    | none => rw [hls] at hb; simp at hb
    | some ls =>
      rw [hls] at hb
      have h2 : ls.flatten = rdeps := Option.some.inj hb
      subst h2
      obtain ⟨l, hl, hrdl⟩ := List.mem_flatten.mp hrd
      obtain ⟨nd, hnd, hedge⟩ := mapM_option_mem (resolvedDepEdge meta) node.deps ls hls l hl
      obtain ⟨dk, -, hentry⟩ :=
        mapM_option_mem (resolvedDepEntry meta nd) nd.dep_kinds l hedge rd hrdl
      refine ⟨node, rfl, nd, hnd, ?_⟩
      unfold resolvedDepEntry at hentry
      cases hname : nd.name.or dk.extName with
      | none => rw [hname] at hentry; simp at hentry
      | some name =>
        cases hfp : findPkg meta nd.pkg with
        | none => rw [hname, hfp] at hentry; simp at hentry
        | some depPkg =>
          rw [hname, hfp] at hentry
          have h3 : (name, dk, depPkg) = rd := Option.some.inj hentry
          rw [← h3]
          exact findPkg_id meta nd.pkg depPkg hfp

theorem Index_new_eq (b : Bool) (meta : Metadata) (rootId : PkgId)
    (root_pkg : Manifest) (rdeps : List (String × NodeDepKind × Manifest))
    (h1 : meta.resolve.root = some rootId)
    (h2 : findPkg meta rootId = some root_pkg)
    (h3 : resolvedDeps meta root_pkg = some rdeps) :
    Index.new b meta = some
      { root_pkg := root_pkg,
        public_packages := (publicTargetsList b root_pkg rdeps).map fun p => p.1.1,
        public_targets := publicTargetsList b root_pkg rdeps } := by
  unfold Index.new
  rw [h1]
  simp only [Option.bind_eq_bind, Option.some_bind]
  rw [h2]
  simp only [Option.some_bind]
  rw [h3]
  simp only [Option.some_bind]
  rfl

theorem Index_new_none (b : Bool) (meta : Metadata) (rootId : PkgId)
    (root_pkg : Manifest)
    (h1 : meta.resolve.root = some rootId)
    (h2 : findPkg meta rootId = some root_pkg)
    (h3 : resolvedDeps meta root_pkg = none) :
    Index.new b meta = none := by
  unfold Index.new
  rw [h1]
  simp only [Option.bind_eq_bind, Option.some_bind]
  rw [h2]
  simp only [Option.some_bind]
  rw [h3]
  rfl

theorem lookupLast_append_top (rest : List ((PkgId × TargetReq) × Option String))
    (id : PkgId) (tr : TargetReq) :
    lookupLast (rest ++ [((id, TargetReq.lib), none), ((id, TargetReq.everyBin), none)])
      (id, tr) = some none := by
  unfold lookupLast
  rw [List.reverse_append]
  cases tr <;> simp [List.find?]

theorem lookupLast_none {κ ν : Type} [DecidableEq κ]
    (l : List (κ × ν)) (k : κ) (h : ∀ p ∈ l, p.1 ≠ k) :
    lookupLast l k = none := by
  unfold lookupLast
  rw [List.find?_eq_none.mpr]
  · rfl
  · intro p hp
    simp only [decide_eq_true_eq]
    exact h p (List.mem_reverse.mp hp)

/-- C5: after Index construction with root_is_real = true, both the root's
library target and its any-binary target are public and recorded with no
rename; with root_is_real = false (and the root not a target of its own
resolved edges, which the spec notes is impossible), neither is public: the
root contributes no synthetic public entries of its own. -/
theorem c5_root_public_targets (meta : Metadata) (idxT idxF : Index)
    (hT : Index.new true meta = some idxT)
    (hF : Index.new false meta = some idxF)
    (hself : ∀ node, findNode meta idxF.root_pkg.id = some node →
      ∀ nd ∈ node.deps, nd.pkg ≠ idxF.root_pkg.id) :
    idxT.public_target_rename idxT.root_pkg .lib = some none ∧
    idxT.public_target_rename idxT.root_pkg .everyBin = some none ∧
    idxT.is_public_target idxT.root_pkg .lib = true ∧
    idxT.is_public_target idxT.root_pkg .everyBin = true ∧
    idxF.is_public_target idxF.root_pkg .lib = false ∧
    idxF.is_public_target idxF.root_pkg .everyBin = false := by
  cases hroot : meta.resolve.root with
  | none => unfold Index.new at hT; rw [hroot] at hT; simp at hT
  | some rootId =>
    cases hfp : findPkg meta rootId with
    | none =>
      unfold Index.new at hT
      rw [hroot] at hT
      simp only [Option.bind_eq_bind, Option.some_bind] at hT
      rw [hfp] at hT
      simp at hT
    | some rp =>
      cases hrd : resolvedDeps meta rp with
      | none =>
        rw [Index_new_none true meta rootId rp hroot hfp hrd] at hT
        simp at hT
      | some rdeps =>
        rw [Index_new_eq true meta rootId rp rdeps hroot hfp hrd] at hT
        rw [Index_new_eq false meta rootId rp rdeps hroot hfp hrd] at hF
        have hT2 := Option.some.inj hT
        have hF2 := Option.some.inj hF
        subst hT2
        subst hF2
        have hpubT : publicTargetsList true rp rdeps =
            (rdeps.map fun rd =>
              ((rd.2.2.id, rd.2.1.target_req),
                lookupLast (depRenamed rp) rd.1)) ++
            [((rp.id, TargetReq.lib), none),
             ((rp.id, TargetReq.everyBin), none)] := by
          unfold publicTargetsList
          rfl
        have hlib : lookupLast (publicTargetsList true rp rdeps)
            (rp.id, TargetReq.lib) = some none := by
          rw [hpubT]
          exact lookupLast_append_top _ rp.id .lib
        have hbin : lookupLast (publicTargetsList true rp rdeps)
            (rp.id, TargetReq.everyBin) = some none := by
          rw [hpubT]
          exact lookupLast_append_top _ rp.id .everyBin
        have hpubF : publicTargetsList false rp rdeps =
            rdeps.map fun rd =>
              ((rd.2.2.id, rd.2.1.target_req),
                lookupLast (depRenamed rp) rd.1) := by
          unfold publicTargetsList
          simp
        have hnotin : ∀ tr : TargetReq,
            lookupLast (publicTargetsList false rp rdeps) (rp.id, tr) = none := by
          intro tr
          rw [hpubF]
          apply lookupLast_none
          intro p hp hkey
          obtain ⟨rd, hrdmem, hpeq⟩ := List.mem_map.mp hp
          rw [← hpeq] at hkey
          have hid : rd.2.2.id = rp.id := congrArg Prod.fst hkey
          obtain ⟨node, hn, nd, hnd, hid2⟩ :=
            resolvedDeps_mem_pkg meta rp rdeps hrd rd hrdmem
          exact hself node hn nd hnd (hid2.symm.trans hid)
        refine ⟨hlib, hbin, ?_, ?_, ?_, ?_⟩
        · show (lookupLast (publicTargetsList true rp rdeps)
            (rp.id, TargetReq.lib)).isSome = true
          rw [hlib]
          rfl
        · show (lookupLast (publicTargetsList true rp rdeps)
            (rp.id, TargetReq.everyBin)).isSome = true
          rw [hbin]
          rfl
        · show (lookupLast (publicTargetsList false rp rdeps)
            (rp.id, TargetReq.lib)).isSome = false
          rw [hnotin .lib]
          rfl
        · show (lookupLast (publicTargetsList false rp rdeps)
            (rp.id, TargetReq.everyBin)).isSome = false
          rw [hnotin .everyBin]
          rfl

/-- Witness: on the sample snapshot the real root is public for both library
and any-binary targets with no rename; the virtual root is public for
neither. -/
theorem c5_root_public_targets_witness :
    Index.new true exMeta = some idxTW ∧
    Index.new false exMeta = some idxFW ∧
    idxTW.public_target_rename idxTW.root_pkg .lib = some none ∧
    idxTW.public_target_rename idxTW.root_pkg .everyBin = some none ∧
    idxFW.is_public_target idxFW.root_pkg .lib = false ∧
    idxFW.is_public_target idxFW.root_pkg .everyBin = false := by
  have hself : ∀ node, findNode exMeta idxFW.root_pkg.id = some node →
      ∀ nd ∈ node.deps, nd.pkg ≠ idxFW.root_pkg.id := by
    intro node hn nd hnd heq
    rw [show findNode exMeta idxFW.root_pkg.id =
        some ⟨"id-root", [⟨"id-a", some "a", [ndkNormal]⟩], []⟩ from by decide] at hn
    cases Option.some.inj hn
    rw [List.mem_singleton.mp hnd] at heq
    exact absurd heq (by decide)
  have h := c5_root_public_targets exMeta idxTW idxFW (by decide) (by decide) hself
  exact ⟨by decide, by decide, h.1, h.2.1, h.2.2.2.2.1, h.2.2.2.2.2⟩

/-- C3 (amended): a missing catalog entry is fatal exactly when construction
reaches it: when the root id has no catalog entry, or a package id referenced
by the root's resolved edges (through at least one dep-kind record) has none,
Index::new aborts (none) and no partial index is produced; resolved_deps for
any package whose node carries such a dangling edge likewise aborts. A
dangling reference in a non-root node does not abort construction; it aborts
the later resolved_deps query for that package (see the counterexample). -/
theorem c3_missing_id_aborts (meta : Metadata) (pkg : Manifest) (node : Node)
    (hn : findNode meta pkg.id = some node)
    (nd : NodeDep) (hnd : nd ∈ node.deps) (dk : NodeDepKind)
    (hdk : dk ∈ nd.dep_kinds) (hmiss : findPkg meta nd.pkg = none) :
    resolvedDeps meta pkg = none ∧
    (∀ (b : Bool) (rid : PkgId), meta.resolve.root = some rid →
      findPkg meta rid = some pkg → Index.new b meta = none) ∧
    (∀ (b : Bool) (rid : PkgId), meta.resolve.root = some rid →
      findPkg meta rid = none → Index.new b meta = none) := by
  have hentry : resolvedDepEntry meta nd dk = none := by
    unfold resolvedDepEntry
    cases hname : nd.name.or dk.extName with
    | none => rfl
    | some name =>
      simp only [Option.bind_eq_bind, Option.some_bind]
      rw [hmiss]
      rfl
  have hedge : resolvedDepEdge meta nd = none :=
    mapM_option_none (resolvedDepEntry meta nd) nd.dep_kinds ⟨dk, hdk, hentry⟩
  have h1 : resolvedDeps meta pkg = none := by
    unfold resolvedDeps
    rw [hn]
    simp only [Option.bind_eq_bind, Option.some_bind]
    rw [mapM_option_none (resolvedDepEdge meta) node.deps ⟨nd, hnd, hedge⟩]
    rfl
  refine ⟨h1, ?_, ?_⟩
  · intro b rid hr hfp
    exact Index_new_none b meta rid pkg hr hfp h1
  · intro b rid hr hfp
    unfold Index.new
    rw [hr]
    simp only [Option.bind_eq_bind, Option.some_bind]
    rw [hfp]
    rfl

/-- Counterexample to C3 as stated: in cexMeta the resolution graph references
id-ghost (through the dangling edge of the non-root node b), id-ghost has no
catalog entry, and yet Index construction succeeds and produces an index. -/
theorem c3_counterexample :
    nodeB ∈ cexMeta.resolve.nodes ∧
    ghostEdge ∈ nodeB.deps ∧
    findPkg cexMeta ghostEdge.pkg = none ∧
    Index.new true cexMeta = some
      ⟨cexRoot, ["id-b", "id-root", "id-root"],
       [(("id-b", .lib), none), (("id-root", .lib), none),
        (("id-root", .everyBin), none)]⟩ := by
  decide

/-- Witness: on cexMeta2, whose root node has a dangling resolved edge,
construction and the root's resolved_deps both abort. -/
theorem c3_missing_id_aborts_witness :
    resolvedDeps cexMeta2 cexRoot = none ∧
    Index.new true cexMeta2 = none := by
  obtain ⟨h1, h2, -⟩ := c3_missing_id_aborts cexMeta2 cexRoot
    ⟨"id-root", [ghostEdge], []⟩ (by decide) ghostEdge (by decide)
    ndkNormal (by decide) (by decide)
  exact ⟨h1, h2 true "id-root" (by decide) (by decide)⟩

theorem extraMetaLoop_spec (pubpkgs : List String) :
    ∀ (table : List (String × ExtraMetadata)) (errs : List String)
      (ret : List (String × ExtraMetadata)),
      (∀ s, s ∈ (extraMetaLoop pubpkgs errs ret table).1 ↔
        s ∈ errs ∨ ∃ p ∈ table, p.1 = s ∧ ¬ p.1 ∈ pubpkgs) ∧
      (extraMetaLoop pubpkgs errs ret table).2 =
        ret ++ table.filter fun p => decide (p.1 ∈ pubpkgs) := by
  intro table
  induction table with
  | nil =>
    intro errs ret
    constructor
    · intro s
      simp [extraMetaLoop]
    · simp [extraMetaLoop]
  | cons hd rest ih =>
    intro errs ret
    obtain ⟨name, val⟩ := hd
    by_cases hmem : name ∈ pubpkgs
    · have hstep : extraMetaLoop pubpkgs errs ret ((name, val) :: rest) =
          extraMetaLoop pubpkgs errs (ret ++ [(name, val)]) rest := by
        simp [extraMetaLoop, hmem]
      rw [hstep]
      constructor
      · intro s
        rw [(ih errs (ret ++ [(name, val)])).1 s]
        constructor
        · rintro (h | ⟨p, hp, hps, hnp⟩)
          · exact Or.inl h
          · exact Or.inr ⟨p, List.mem_cons_of_mem _ hp, hps, hnp⟩
        · rintro (h | ⟨p, hp, hps, hnp⟩)
          · exact Or.inl h
          · rcases List.mem_cons.mp hp with rfl | hp2
            · exact absurd hmem hnp
            · exact Or.inr ⟨p, hp2, hps, hnp⟩
      · rw [(ih errs (ret ++ [(name, val)])).2,
          List.filter_cons_of_pos (by simp [hmem])]
        simp
    · have hstep : extraMetaLoop pubpkgs errs ret ((name, val) :: rest) =
          extraMetaLoop pubpkgs
            (if name ∈ errs then errs else errs ++ [name]) ret rest := by
        simp [extraMetaLoop, hmem]
      rw [hstep]
      have herrs : ∀ s, s ∈ (if name ∈ errs then errs else errs ++ [name]) ↔
          s ∈ errs ∨ s = name := by
        intro s
        by_cases he : name ∈ errs
        · rw [if_pos he]
          constructor
          · exact Or.inl
          · rintro (h | rfl)
            · exact h
            · exact he
        · rw [if_neg he]
          simp
      constructor
      · intro s
        rw [(ih _ ret).1 s]
        constructor
        · rintro (hs | ⟨p, hp, hps, hnp⟩)
          · rcases (herrs s).mp hs with h | rfl
            · exact Or.inl h
            · exact Or.inr ⟨(s, val), List.mem_cons_self _ _, rfl, hmem⟩
          · exact Or.inr ⟨p, List.mem_cons_of_mem _ hp, hps, hnp⟩
        · rintro (hs | ⟨p, hp, hps, hnp⟩)
          · exact Or.inl ((herrs s).mpr (Or.inl hs))
          · rcases List.mem_cons.mp hp with rfl | hp2
            · exact Or.inl ((herrs s).mpr (Or.inr hps.symm))
            · exact Or.inr ⟨p, hp2, hps, hnp⟩
      · rw [(ih _ ret).2, List.filter_cons_of_neg (by simp [hmem])]

/-- C8: get_extra_meta fails exactly when the third-party table has a key
matching no direct dependency name of the root; on failure the single
aggregate error names exactly the set of unmatched keys, and on success the
whole table is returned re-keyed by the matching dependency names. -/
theorem c8_extra_meta_aggregate (root : Manifest)
    (table : List (String × ExtraMetadata))
    (ht : root.thirdParty = some table) :
    ((get_extra_meta root).isOk = true ↔
      ∀ p ∈ table, p.1 ∈ root.dependencies.map fun d => d.name) ∧
    (∀ errs, get_extra_meta root = .error errs →
      ∀ s, s ∈ errs ↔ ∃ p ∈ table, p.1 = s ∧
        ¬ p.1 ∈ root.dependencies.map fun d => d.name) ∧
    ((∀ p ∈ table, p.1 ∈ root.dependencies.map fun d => d.name) →
      get_extra_meta root = .ok table) := by
  have hspec := extraMetaLoop_spec (root.dependencies.map fun d => d.name)
    table [] []
  have hget : get_extra_meta root =
      (if (extraMetaLoop (root.dependencies.map fun d => d.name) [] [] table).1.isEmpty
        then .ok (extraMetaLoop (root.dependencies.map fun d => d.name) [] [] table).2
        else .error (extraMetaLoop (root.dependencies.map fun d => d.name) [] [] table).1) := by
    unfold get_extra_meta
    rw [ht]
  have hempty :
      (extraMetaLoop (root.dependencies.map fun d => d.name) [] [] table).1.isEmpty = true ↔
      ∀ p ∈ table, p.1 ∈ root.dependencies.map fun d => d.name := by
    rw [List.isEmpty_iff]
    constructor
    · intro hnil p hp
      by_contra hno
      have hmem : p.1 ∈ (extraMetaLoop (root.dependencies.map fun d => d.name) [] [] table).1 :=
        (hspec.1 p.1).mpr (Or.inr ⟨p, hp, rfl, hno⟩)
      rw [hnil] at hmem
      exact absurd hmem (List.not_mem_nil _)
    · intro hall
      cases hc : (extraMetaLoop (root.dependencies.map fun d => d.name) [] [] table).1 with
      | nil => rfl
      | cons s t =>
        have hs : s ∈ (extraMetaLoop (root.dependencies.map fun d => d.name) [] [] table).1 := by
          rw [hc]
          exact List.mem_cons_self s t
        rcases (hspec.1 s).mp hs with h | ⟨p, hp, hps, hnp⟩
        · exact absurd h (List.not_mem_nil s)
        · exact absurd (hall p hp) hnp
  refine ⟨?_, ?_, ?_⟩
  · rw [hget]
    by_cases hc :
        (extraMetaLoop (root.dependencies.map fun d => d.name) [] [] table).1.isEmpty = true
    · rw [if_pos hc]
      constructor
      · intro _
        exact hempty.mp hc
      · intro _
        rfl
    · rw [if_neg hc]
      constructor
      · intro habs
        simp [Except.isOk, Except.toBool] at habs
      · intro hall
        exact absurd (hempty.mpr hall) hc
  · intro errs herr s
    rw [hget] at herr
    by_cases hc :
        (extraMetaLoop (root.dependencies.map fun d => d.name) [] [] table).1.isEmpty = true
    · rw [if_pos hc] at herr
      simp at herr
    · rw [if_neg hc] at herr
      have herrs : (extraMetaLoop (root.dependencies.map fun d => d.name) [] [] table).1 = errs := by
        simpa using herr
      rw [← herrs, hspec.1 s]
      simp
  · intro hall
    rw [hget, if_pos (hempty.mpr hall), hspec.2, List.nil_append,
      List.filter_eq_self.mpr]
    intro p hp
    simpa using hall p hp

/-- Witness: the table with unmatched keys zed and a-typo fails, the fully
matched table succeeds with the whole mapping. -/
theorem c8_extra_meta_aggregate_witness :
    (get_extra_meta root8bad).isOk = false ∧
    get_extra_meta root8ok = .ok [("a", ⟨"oncall-a"⟩), ("b", ⟨"oncall-b"⟩)] := by
  constructor
  · have h := (c8_extra_meta_aggregate root8bad
      [("a", ⟨"oncall-a"⟩), ("zed", ⟨"oncall-z"⟩), ("a-typo", ⟨"oncall-t"⟩)] rfl).1
    by_cases hd : (get_extra_meta root8bad).isOk = true
    · exact absurd (h.mp hd) (by decide)
    · simpa using hd
  · exact (c8_extra_meta_aggregate root8ok
      [("a", ⟨"oncall-a"⟩), ("b", ⟨"oncall-b"⟩)] rfl).2.2 (by decide)

theorem cmpBy_lt {α : Type} [LinearOrder α] (a b : α) : cmpBy a b = .lt ↔ a < b := by
  unfold cmpBy
  rcases lt_trichotomy a b with h | h | h
  · rw [if_pos h]
    exact ⟨fun _ => h, fun _ => rfl⟩
  · subst h
    rw [if_neg (lt_irrefl a), if_pos rfl]
    exact ⟨fun hh => absurd hh (by decide), fun hh => absurd hh (lt_irrefl a)⟩
  · rw [if_neg (lt_asymm h), if_neg h.ne.symm]
    exact ⟨fun hh => absurd hh (by decide), fun hh => absurd hh (lt_asymm h)⟩

theorem cmpBy_eq {α : Type} [LinearOrder α] (a b : α) : cmpBy a b = .eq ↔ a = b := by
  unfold cmpBy
  rcases lt_trichotomy a b with h | h | h
  · rw [if_pos h]
    exact ⟨fun hh => absurd hh (by decide), fun hh => absurd hh h.ne⟩
  · subst h
    rw [if_neg (lt_irrefl a), if_pos rfl]
    exact ⟨fun _ => rfl, fun _ => rfl⟩
  · rw [if_neg (lt_asymm h), if_neg h.ne.symm]
    exact ⟨fun hh => absurd hh (by decide), fun hh => absurd hh h.ne.symm⟩

theorem cmpBy_gt {α : Type} [LinearOrder α] (a b : α) : cmpBy a b = .gt ↔ b < a := by
  unfold cmpBy
  rcases lt_trichotomy a b with h | h | h
  · rw [if_pos h]
    exact ⟨fun hh => absurd hh (by decide), fun hh => absurd hh (lt_asymm h)⟩
  · subst h
    rw [if_neg (lt_irrefl a), if_pos rfl]
    exact ⟨fun hh => absurd hh (by decide), fun hh => absurd hh (lt_irrefl a)⟩
  · rw [if_neg (lt_asymm h), if_neg h.ne.symm]
    exact ⟨fun _ => h, fun _ => rfl⟩

theorem lawful_cmpBy {α : Type} [LinearOrder α] : LawfulCmp (cmpBy (α := α)) := by
  refine ⟨cmpBy_eq, ?_, ?_⟩
  · intro a b
    rw [cmpBy_lt, cmpBy_gt]
  · intro a b c hab hbc
    rw [cmpBy_lt] at hab hbc ⊢
    exact lt_trans hab hbc

theorem lawful_optCmp {α : Type} {c : α → α → Ordering} (hc : LawfulCmp c) :
    LawfulCmp (optCmp c) := by
  refine ⟨?_, ?_, ?_⟩
  · intro a b
    cases a <;> cases b <;> simp [optCmp, hc.eq_iff]
  · intro a b
    cases a <;> cases b <;> simp [optCmp, hc.lt_gt]
  · intro a b c hab hbc
    cases a with
    | none =>
      cases c with
      | none => cases b <;> simp [optCmp] at hab hbc
      | some cv => simp [optCmp]
    | some av =>
      cases b with
      | none => simp [optCmp] at hab
      | some bv =>
        cases c with
        | none => simp [optCmp] at hbc
        | some cv =>
          simp only [optCmp] at hab hbc ⊢
          exact hc.lt_trans _ _ _ hab hbc

theorem lexCmp_lt_iff {α β : Type} {c : α → α → Ordering} {d : β → β → Ordering}
    (a b : α × β) :
    lexCmp c d a b = .lt ↔
      c a.1 b.1 = .lt ∨ (c a.1 b.1 = .eq ∧ d a.2 b.2 = .lt) := by
  unfold lexCmp
  cases h1 : c a.1 b.1 with
  | lt =>
    have hred : Ordering.lt.then (d a.2 b.2) = .lt := rfl
    rw [hred]
    simp
  | eq =>
    have hred : Ordering.eq.then (d a.2 b.2) = d a.2 b.2 := rfl
    rw [hred]
    simp
  | gt =>
    have hred : Ordering.gt.then (d a.2 b.2) = .gt := rfl
    rw [hred]
    simp

theorem lawful_lexCmp {α β : Type} {c : α → α → Ordering} {d : β → β → Ordering}
    (hc : LawfulCmp c) (hd : LawfulCmp d) : LawfulCmp (lexCmp c d) := by
  refine ⟨?_, ?_, ?_⟩
  · intro a b
    unfold lexCmp
    cases h1 : c a.1 b.1 with
    | lt =>
      have hred : Ordering.lt.then (d a.2 b.2) = .lt := rfl
      rw [hred]
      refine ⟨fun hh => absurd hh (by decide), ?_⟩
      rintro rfl
      have h2 := (hc.eq_iff a.1 a.1).mpr rfl
      rw [h1] at h2
      exact Ordering.noConfusion h2
    | eq =>
      have hred : Ordering.eq.then (d a.2 b.2) = d a.2 b.2 := rfl
      rw [hred, hd.eq_iff a.2 b.2]
      refine ⟨fun h2 => Prod.ext ((hc.eq_iff _ _).mp h1) h2, ?_⟩
      rintro rfl
      rfl
    | gt =>
      have hred : Ordering.gt.then (d a.2 b.2) = .gt := rfl
      rw [hred]
      refine ⟨fun hh => absurd hh (by decide), ?_⟩
      rintro rfl
      have h2 := (hc.eq_iff a.1 a.1).mpr rfl
      rw [h1] at h2
      exact Ordering.noConfusion h2
  · intro a b
    unfold lexCmp
    cases h1 : c a.1 b.1 with
    | lt =>
      have h2 : c b.1 a.1 = .gt := (hc.lt_gt a.1 b.1).mp h1
      rw [h2]
      have hra : Ordering.lt.then (d a.2 b.2) = .lt := rfl
      have hrb : Ordering.gt.then (d b.2 a.2) = .gt := rfl
      rw [hra, hrb]
      simp
    | eq =>
      have h2 : c b.1 a.1 = .eq := (hc.eq_iff _ _).mpr (((hc.eq_iff _ _).mp h1).symm)
      rw [h2]
      have hra : Ordering.eq.then (d a.2 b.2) = d a.2 b.2 := rfl
      have hrb : Ordering.eq.then (d b.2 a.2) = d b.2 a.2 := rfl
      rw [hra, hrb]
      exact hd.lt_gt a.2 b.2
    | gt =>
      have h2 : c b.1 a.1 = .lt := (hc.lt_gt b.1 a.1).mpr h1
      rw [h2]
      have hra : Ordering.gt.then (d a.2 b.2) = .gt := rfl
      have hrb : Ordering.lt.then (d b.2 a.2) = .lt := rfl
      rw [hra, hrb]
      simp
  · intro a b c2 hab hbc
    rw [lexCmp_lt_iff] at hab hbc ⊢
    rcases hab with hab | ⟨hab1, hab2⟩
    · rcases hbc with hbc | ⟨hbc1, hbc2⟩
      · exact Or.inl (hc.lt_trans _ _ _ hab hbc)
      · rw [(hc.eq_iff _ _).mp hbc1] at hab
        exact Or.inl hab
    · rcases hbc with hbc | ⟨hbc1, hbc2⟩
      · rw [← (hc.eq_iff _ _).mp hab1] at hbc
        exact Or.inl hbc
      · refine Or.inr ⟨?_, hd.lt_trans _ _ _ hab2 hbc2⟩
        rw [(hc.eq_iff _ _).mp hab1, (hc.eq_iff _ _).mp hbc1]
        exact (hc.eq_iff _ _).mpr rfl

theorem lawful_keyCmp : LawfulCmp keyCmp := by
  unfold keyCmp
  exact lawful_lexCmp lawful_cmpBy
    (lawful_lexCmp (lawful_lexCmp lawful_cmpBy (lawful_lexCmp lawful_cmpBy lawful_cmpBy))
      (lawful_optCmp lawful_cmpBy))

theorem cmp_le_lt_trans {α : Type} {cmp : α → α → Ordering} (h : LawfulCmp cmp)
    {a b c : α} (h1 : cmp a b ≠ .gt) (h2 : cmp b c = .lt) : cmp a c = .lt := by
  cases hab : cmp a b with
  | lt => exact h.lt_trans a b c hab h2
  | eq => rw [(h.eq_iff _ _).mp hab]; exact h2
  | gt => exact absurd hab h1

theorem cmp_le_gt_trans {α : Type} {cmp : α → α → Ordering} (h : LawfulCmp cmp)
    {a b c : α} (h1 : cmp a b ≠ .gt) (h2 : cmp a c = .gt) : cmp b c = .gt := by
  have h2l : cmp c a = .lt := (h.lt_gt c a).mpr h2
  cases hab : cmp a b with
  | lt => exact (h.lt_gt c b).mp (h.lt_trans c a b h2l hab)
  | eq => rw [← (h.eq_iff _ _).mp hab]; exact h2
  | gt => exact absurd hab h1

theorem cmp_le_trans {α : Type} {cmp : α → α → Ordering} (h : LawfulCmp cmp)
    {a b c : α} (h1 : cmp a b ≠ .gt) (h2 : cmp b c ≠ .gt) : cmp a c ≠ .gt := by
  intro hac
  exact h2 (cmp_le_gt_trans h h1 hac)

theorem cmp_total {α : Type} {cmp : α → α → Ordering} (h : LawfulCmp cmp)
    (a b : α) : cmp a b ≠ .gt ∨ cmp b a ≠ .gt := by
  cases hab : cmp a b with
  | lt => left; decide
  | eq => left; decide
  | gt =>
    right
    rw [(h.lt_gt b a).mpr hab]
    decide

theorem lockLe_iff (a b : LockfilePackage) :
    lockLe a b = true ↔ keyCmp a.key b.key ≠ .gt := by
  unfold lockLe
  cases keyCmp a.key b.key <;> decide

theorem binSearchGo_some (f : LockfilePackage → Ordering)
    (xs : List LockfilePackage) :
    ∀ (n left right i : Nat), right - left ≤ n → right ≤ xs.length →
      binSearchGo f xs left right = some i →
      left ≤ i ∧ i < right ∧ f (xs.getD i default) = .eq := by
  intro n
  induction n with
  | zero =>
    intro left right i hn hr h
    unfold binSearchGo at h
    rw [dif_neg (by omega)] at h
    exact absurd h (by simp)
  | succ n ih =>
    intro left right i hn hr h
    unfold binSearchGo at h
    by_cases hlr : left < right
    · rw [dif_pos hlr] at h
      cases hf : f (xs.getD (left + (right - left) / 2) default) with
      | lt =>
        rw [hf] at h
        have hrec := ih (left + (right - left) / 2 + 1) right i (by omega) hr h
        exact ⟨by omega, hrec.2.1, hrec.2.2⟩
      | gt =>
        rw [hf] at h
        have hrec := ih left (left + (right - left) / 2) i (by omega) (by omega) h
        exact ⟨hrec.1, by omega, hrec.2.2⟩
      | eq =>
        rw [hf] at h
        have h2 : left + (right - left) / 2 = i := Option.some.inj h
        subst h2
        exact ⟨by omega, by omega, hf⟩
    · rw [dif_neg hlr] at h
      exact absurd h (by simp)

theorem binSearchGo_none (f : LockfilePackage → Ordering)
    (xs : List LockfilePackage)
    (hlt : ∀ i j, i ≤ j → j < xs.length →
      f (xs.getD j default) = .lt → f (xs.getD i default) = .lt)
    (hgt : ∀ i j, i ≤ j → j < xs.length →
      f (xs.getD i default) = .gt → f (xs.getD j default) = .gt) :
    ∀ (n left right : Nat), right - left ≤ n → left ≤ right →
      right ≤ xs.length →
      (∀ i, i < left → f (xs.getD i default) = .lt) →
      (∀ i, right ≤ i → i < xs.length → f (xs.getD i default) = .gt) →
      binSearchGo f xs left right = none →
      ∀ j, j < xs.length → f (xs.getD j default) ≠ .eq := by
  intro n
  induction n with
  | zero =>
    intro left right hn hle hr inv1 inv2 _ j hj heq
    by_cases hjl : j < left
    · rw [inv1 j hjl] at heq
      exact Ordering.noConfusion heq
    · rw [inv2 j (by omega) hj] at heq
      exact Ordering.noConfusion heq
  | succ n ih =>
    intro left right hn hle hr inv1 inv2 h j hj
    unfold binSearchGo at h
    by_cases hlr : left < right
    · rw [dif_pos hlr] at h
      cases hf : f (xs.getD (left + (right - left) / 2) default) with
      | lt =>
        rw [hf] at h
        refine ih (left + (right - left) / 2 + 1) right (by omega) (by omega)
          hr ?_ inv2 h j hj
        intro i hi
        by_cases hii : i < left
        · exact inv1 i hii
        · exact hlt i (left + (right - left) / 2) (by omega) (by omega) hf
      | gt =>
        rw [hf] at h
        refine ih left (left + (right - left) / 2) (by omega) (by omega)
          (by omega) inv1 ?_ h j hj
        intro i hmidle hi
        exact hgt (left + (right - left) / 2) i hmidle hi hf
      | eq =>
        rw [hf] at h
        exact absurd h (Option.noConfusion)
    · rw [dif_neg hlr] at h
      intro heq
      by_cases hjl : j < left
      · rw [inv1 j hjl] at heq
        exact Ordering.noConfusion heq
      · rw [inv2 j (by omega) hj] at heq
        exact Ordering.noConfusion heq

theorem lockfile_find_spec (lf : Lockfile) (m : Manifest)
    (hsorted : List.Pairwise (fun a b => lockLe a b = true) lf.packages) :
    (∀ p, lf.find m = some p → p.key = m.lockKey) ∧
    ((lf.find m).isSome = true ↔ ∃ p ∈ lf.packages, p.key = m.lockKey) := by
  have hle : ∀ i j, i ≤ j → j < lf.packages.length →
      keyCmp (lf.packages.getD i default).key
        (lf.packages.getD j default).key ≠ .gt := by
    intro i j hij hj
    rcases Nat.lt_or_ge i j with hij2 | hij2
    · have h2 := List.pairwise_iff_get.mp hsorted ⟨i, by omega⟩ ⟨j, hj⟩ hij2
      rw [lockLe_iff] at h2
      rw [List.getD_eq_getElem _ _ (by omega : i < lf.packages.length),
        List.getD_eq_getElem _ _ hj]
      exact h2
    · have hi : i = j := by omega
      subst hi
      rw [(lawful_keyCmp.eq_iff _ _).mpr rfl]
      decide
  have hlt : ∀ i j, i ≤ j → j < lf.packages.length →
      keyCmp (lf.packages.getD j default).key m.lockKey = .lt →
      keyCmp (lf.packages.getD i default).key m.lockKey = .lt := by
    intro i j hij hj h2
    exact cmp_le_lt_trans lawful_keyCmp (hle i j hij hj) h2
  have hgt : ∀ i j, i ≤ j → j < lf.packages.length →
      keyCmp (lf.packages.getD i default).key m.lockKey = .gt →
      keyCmp (lf.packages.getD j default).key m.lockKey = .gt := by
    intro i j hij hj h2
    exact cmp_le_gt_trans lawful_keyCmp (hle i j hij hj) h2
  constructor
  · intro p hfind
    unfold Lockfile.find at hfind
    cases hbs : binSearchGo (fun p => keyCmp p.key m.lockKey) lf.packages 0
        lf.packages.length with
    | none => rw [hbs] at hfind; exact absurd hfind (by simp)
    | some i =>
      rw [hbs] at hfind
      have h2 := binSearchGo_some (fun p => keyCmp p.key m.lockKey) lf.packages
        lf.packages.length 0 lf.packages.length i (by omega) (le_refl _) hbs
      have hp : lf.packages.getD i default = p := Option.some.inj hfind
      rw [← hp]
      exact (lawful_keyCmp.eq_iff _ _).mp h2.2.2
  · constructor
    · intro hsome
      unfold Lockfile.find at hsome
      cases hbs : binSearchGo (fun p => keyCmp p.key m.lockKey) lf.packages 0
          lf.packages.length with
      | none => rw [hbs] at hsome; simp at hsome
      | some i =>
        have h2 := binSearchGo_some (fun p => keyCmp p.key m.lockKey)
          lf.packages lf.packages.length 0 lf.packages.length i (by omega)
          (le_refl _) hbs
        refine ⟨lf.packages.getD i default, ?_,
          (lawful_keyCmp.eq_iff _ _).mp h2.2.2⟩
        rw [List.getD_eq_getElem _ _ h2.2.1]
        exact List.getElem_mem _
    · rintro ⟨p, hp, hkey⟩
      unfold Lockfile.find
      cases hbs : binSearchGo (fun p => keyCmp p.key m.lockKey) lf.packages 0
          lf.packages.length with
      | some i => rfl
      | none =>
        exfalso
        have hnone := binSearchGo_none (fun p => keyCmp p.key m.lockKey)
          lf.packages hlt hgt lf.packages.length 0 lf.packages.length
          (by omega) (by omega) (le_refl _)
          (fun i hi => absurd hi (Nat.not_lt_zero i))
          (fun i h1 h2 => absurd h2 (Nat.not_lt.mpr h1)) hbs
        obtain ⟨idx, hidx⟩ := List.mem_iff_get.mp hp
        apply hnone idx.1 idx.2
        have hgd : lf.packages.getD idx.1 default = p := by
          rw [List.getD_eq_getElem _ _ idx.2]
          exact hidx
        rw [hgd]
        exact (lawful_keyCmp.eq_iff _ _).mpr hkey

/-- C7: Lockfile::load sorts the entries by the (name, version, source)
triple, and Lockfile::find then agrees with an exact-match linear scan on
every manifest: a returned entry matches the manifest's triple exactly, an
entry is found exactly when one with that triple is in the lockfile, and the
find result's presence equals the linear-scan answer. -/
theorem c7_lockfile_load_find (version : Nat) (pkgs : List LockfilePackage)
    (m : Manifest) :
    ∃ lf, Lockfile.load version pkgs = .ok lf ∧
      List.Pairwise (fun a b => lockLe a b = true) lf.packages ∧
      (∀ p, lf.find m = some p → p.key = m.lockKey) ∧
      ((lf.find m).isSome = true ↔ ∃ p ∈ lf.packages, p.key = m.lockKey) ∧
      (lf.find m).isSome =
        lf.packages.any fun p => decide (p.key = m.lockKey) := by
  have htrans : ∀ a b c : LockfilePackage, lockLe a b = true →
      lockLe b c = true → lockLe a c = true := by
    intro a b c h1 h2
    rw [lockLe_iff] at h1 h2 ⊢
    exact cmp_le_trans lawful_keyCmp h1 h2
  have htot : ∀ a b : LockfilePackage, (lockLe a b || lockLe b a) = true := by
    intro a b
    rcases cmp_total lawful_keyCmp a.key b.key with h | h
    · rw [(lockLe_iff a b).mpr h, Bool.true_or]
    · rw [(lockLe_iff b a).mpr h, Bool.or_true]
  have hsorted := List.sorted_mergeSort htrans htot pkgs
  have hspec := lockfile_find_spec ⟨(), pkgs.mergeSort lockLe⟩ m hsorted
  refine ⟨⟨(), pkgs.mergeSort lockLe⟩, rfl, hsorted, hspec.1, hspec.2, ?_⟩
  rw [Bool.eq_iff_iff, hspec.2, List.any_eq_true]
  constructor
  · rintro ⟨p, hp, hkey⟩
    exact ⟨p, hp, by simpa using hkey⟩
  · rintro ⟨p, hp, hkey⟩
    exact ⟨p, hp, by simpa using hkey⟩

/-- C9: Lockfile::load succeeds for every integer schema version: a value
other than 3 makes the Hopefully3 deserializer emit only a log warning and
still succeed, and the entries are loaded (the sorted list is a permutation
of the input entries). -/
theorem c9_version_only_warns (version : Nat) (pkgs : List LockfilePackage)
    (_hv : version ≠ 3) :
    hopefully3Deserialize version = .ok () ∧
    ∃ lf, Lockfile.load version pkgs = .ok lf ∧ lf.packages.Perm pkgs := by
  exact ⟨rfl, ⟨(), pkgs.mergeSort lockLe⟩, rfl, List.mergeSort_perm pkgs lockLe⟩

/-- Witness: loading the sample entry list with schema version 5 succeeds and
keeps all entries. -/
theorem c9_version_only_warns_witness :
    (Lockfile.load 5 lockPkgsW).isOk = true ∧
    (Lockfile.load 5 lockPkgsW).map (fun lf => lf.packages.length) = .ok 3 := by
  obtain ⟨-, lf, hlf, hperm⟩ := c9_version_only_warns 5 lockPkgsW (by decide)
  constructor
  · rw [hlf]
    rfl
  · rw [hlf]
    have hlen : lf.packages.length = 3 := by
      rw [hperm.length_eq]
      rfl
    rw [Except.map, hlen]
